import Mathlib

/-!
Verification development for the document-extractor pipeline
(`scripts/common.py`, `scripts/output_writer.py`, `scripts/process_run.py`
and the per-format pass scripts).  Python functions are shallowly embedded
as executable Lean definitions.  Filesystem and subprocess I/O (file
contents, OCR output, disk-space probes, timestamps) is supplied as
explicit inputs.

Numeric representation: every reliability value the pipeline manipulates
is `round(x, 4)` of a ratio in [0,1], or the `statistics.median` of such
values (the arithmetic mean of two of them).  All of these are exact
integer multiples of 1/20000, so scores are embedded as naturals in units
of 1/20000 (`Score`); `SCALE = 20000` denotes 1.0.  Python's float
arithmetic is thereby idealised as exact decimal arithmetic; `round` and
`%.2f`-formatting round half-to-even, which `rndDiv` implements exactly.
-/

namespace DocExtractor

/-- A reliability value in units of `1/SCALE` (i.e. 1/20000 of 1.0). -/
abbrev Score := Nat

/-- The denominator of the `Score` fixed-point representation: 20000 = 1.0. -/
def SCALE : Nat := 20000

/-- Round `x / y` to the nearest natural, ties to even — the rounding used by
Python's `round` and `%.2f` float formatting (`y` is assumed positive). -/
def rndDiv (x y : Nat) : Nat :=
  let q := x / y
  let r := x % y
  if 2 * r < y then q
  else if y < 2 * r then q + 1
  else if q % 2 = 0 then q else q + 1

/-- `common.score_reliability`: alnum/length ratio clamped to [0..1], rounded
to 4 decimals.  (Python's Unicode `str.isalnum` is modelled by
`Char.isAlphanum`; all inputs considered here are ASCII.  The `max(0.0, ·)`
clamp is a no-op on naturals and `min(1.0, ·)` is the `min 10000`.) -/
def score_reliability (text : String) : Score :=
  if text = "" then 0
  else
    let total := text.length
    let alnum := (text.data.filter Char.isAlphanum).length
    2 * min 10000 (rndDiv (10000 * alnum) total)

/-- Insert into an ascending list (helper for `sortAsc`). -/
def insertAsc (x : Nat) : List Nat → List Nat
  | [] => [x]
  | y :: ys => if x ≤ y then x :: y :: ys else y :: insertAsc x ys

/-- Ascending insertion sort, modelling Python's `sorted`. -/
def sortAsc (l : List Nat) : List Nat := l.foldr insertAsc []

/-- Drop adjacent duplicates; on a sorted list this models Python's
`sorted(set(...))` deduplication. -/
def dedupAdj : List Nat → List Nat
  | [] => []
  | [x] => [x]
  | x :: y :: rest => if x = y then dedupAdj (y :: rest) else x :: dedupAdj (y :: rest)

/-- `common.median`: `statistics.median` of a list of scores, `0.0` for the
empty list; even cardinality averages the two middle values (exact here,
since all incoming scores are even multiples of 1/SCALE). -/
def median (values : List Score) : Score :=
  if values = [] then 0
  else
    let s := sortAsc values
    let n := s.length
    if n % 2 = 1 then s.getD (n / 2) 0
    else (s.getD (n / 2 - 1) 0 + s.getD (n / 2) 0) / 2

/-- Python `max(xs, default=0.0)`. -/
def maxD (xs : List Score) : Score :=
  match xs with
  | [] => 0
  | y :: ys => ys.foldl max y

/-- `%.2f` formatting of a score, returned as the integer number of
hundredths (`0.91` ↦ `91`). -/
def scoreCenti (s : Score) : Nat := rndDiv s 200

/-- Left-pad a numeral string to two digits. -/
def pad2 (n : Nat) : String := if n < 10 then "0" ++ toString n else toString n

/-- `%.2f` formatting of a score as a string (`18182` ↦ `"0.91"`). -/
def fmt2 (s : Score) : String :=
  let c := scoreCenti s
  toString (c / 100) ++ "." ++ pad2 (c % 100)

/-- Fuel-driven helper for `natDigits`; the fuel is an upper bound on the
argument, so the first branch is never reached in `natDigits`. -/
def natDigitsAux : Nat → Nat → List Nat
  | 0, n => [n % 10]
  | f + 1, n => if n < 10 then [n] else natDigitsAux f (n / 10) ++ [n % 10]

/-- Decimal digits (most significant first) of `n`, without padding. -/
def natDigits (n : Nat) : List Nat := natDigitsAux n n

/-- Value of a digit string, as read back by Python's `int`. -/
def digitsVal (ds : List Nat) : Nat := ds.foldl (fun a d => a * 10 + d) 0

/-- Render a digit list as a numeral string. -/
def digitsStr (ds : List Nat) : String := String.join (ds.map toString)

/-- Python `str(float)` of a score (exact-decimal idealisation): integer
part, a dot, then the fractional digits with trailing zeros trimmed
(at least one digit, so `1.0` renders as `"1.0"`). -/
def floatRepr (s : Score) : String :=
  let ip := s / SCALE
  let fr := (s % SCALE) * 5   -- numerator over 10^5
  let ds := (List.replicate (5 - (natDigits fr).length) 0 ++ natDigits fr).reverse.dropWhile
      (fun d => d = 0) |>.reverse
  toString ip ++ "." ++ (if ds = [] then "0" else digitsStr ds)

-- ---------- kernel-computable string helpers ----------
-- (Core's position-based `String.splitOn`, `trim`, `toLower`, `replace`
-- and `startsWith` do not reduce in the kernel; these equivalents work on
-- the character list instead.)

/-- Python `str.lower` (ASCII-relevant part). -/
def strLower (s : String) : String := ⟨s.data.map Char.toLower⟩

/-- Python `str.strip` with no argument: drop surrounding whitespace. -/
def pyStrip (s : String) : String :=
  ⟨((s.data.dropWhile Char.isWhitespace).reverse.dropWhile Char.isWhitespace).reverse⟩

/-- Split a character list on a separator character; always returns one
group more than the number of separators, like Python `str.split(sep)`. -/
def splitCharList (sep : Char) (l : List Char) : List (List Char) :=
  l.foldr
    (fun c acc =>
      if c == sep then [] :: acc
      else
        match acc with
        | [] => [[c]]
        | g :: gs => (c :: g) :: gs)
    [[]]

/-- Python `s.split(sep)` for a one-character separator. -/
def strSplitOn (sep : Char) (s : String) : List String :=
  (splitCharList sep s.data).map String.mk

/-- Does the string start with a `'.'`? -/
def startsWithDot (s : String) : Bool :=
  match s.data with
  | [] => false
  | c :: _ => c == '.'

-- ---------- path helpers (Python pathlib behaviour used by the scripts) ----------

/-- Final path component (`Path(p).name`). -/
def pathName (p : String) : String := (strSplitOn '/' p).getLastD p

/-- Stem of a file NAME (no directory part): the name with its last
extension removed; dotfiles such as `".txt"` have no extension. -/
def nameStem (n : String) : String :=
  let parts := strSplitOn '.' n
  match parts with
  | [] => n
  | [_] => n
  | ps =>
    if startsWithDot n && ps.length = 2 then n
    else String.intercalate "." ps.dropLast

/-- `Path(name).suffix` of a file NAME: the last extension including the
dot, `""` for extension-less names and plain dotfiles. -/
def pathSuffix (n : String) : String :=
  let parts := strSplitOn '.' n
  match parts with
  | [] => ""
  | [_] => ""
  | ps =>
    if startsWithDot n && ps.length = 2 then ""
    else
      let last := ps.getLastD ""
      if last = "" then "" else "." ++ last

/-- `with_suffix(".txt")` on a relative path: replace the last extension of
the final component by `.txt` (append when there is none). -/
def withSuffixTxt (p : String) : String :=
  let comps := strSplitOn '/' p
  let name := comps.getLastD p
  String.intercalate "/" (comps.dropLast ++ [nameStem name ++ ".txt"])

-- ---------- process_run.py: routing and run-level constants ----------

/-- The 6-column header `process_run._write_header_if_needed` seeds the run
CSV with (and that `common.CsvWriter` writes on an empty file). -/
def CSV_HEADER : List String :=
  ["filename", "page", "text", "method", "used_ocr", "reliability"]

def SUPPORTED_EXTS : List String :=
  [".pdf", ".docx", ".doc", ".txt", ".tif", ".tiff", ".png", ".jpg", ".jpeg"]

def UNSUPPORTED_EXTS : List String := [".xlsx"]

def NOISE_DELETE_EXTS : List String := [".wav"]

inductive RouteKind where
  | noiseDelete
  | unsupported
  | pdf
  | doc
  | txt
  | img
deriving DecidableEq

/-- `process_run._route_ext`: classify a file by its lowercased extension. -/
def route_ext (fileName : String) : RouteKind :=
  let ext := strLower (pathSuffix fileName)
  if ext ∈ NOISE_DELETE_EXTS then .noiseDelete
  else if ¬ ext ∈ SUPPORTED_EXTS ∧ ¬ ext ∈ UNSUPPORTED_EXTS then .unsupported
  else if ext ∈ UNSUPPORTED_EXTS then .unsupported
  else if ext = ".pdf" then .pdf
  else if ext = ".docx" ∨ ext = ".doc" then .doc
  else if ext = ".txt" then .txt
  else if ext ∈ [".tif", ".tiff", ".png", ".jpg", ".jpeg"] then .img
  else .unsupported

-- ---------- the run tree and process_run.main's os.walk ----------

mutual
inductive FsEntry where
  | file (name : String)
  | dir (name : String) (children : FsEntries)
inductive FsEntries where
  | nil
  | cons (e : FsEntry) (rest : FsEntries)
end

def FsEntries.toList : FsEntries → List FsEntry
  | .nil => []
  | .cons e rest => e :: rest.toList

mutual
/-- Files yielded by the orchestrator's `os.walk` below one entry of the
run tree: a directory is descended into unless its lowercased name equals
`"mandatory review"` (`dirs[:] = [d for d in dirs if d.lower() != "mandatory review"]`).
Each file is reported with the directory components leading to it. -/
def walkEntry : List String → FsEntry → List (List String × String)
  | path, .file n => [(path, n)]
  | path, .dir n children =>
      if strLower n = "mandatory review" then []
      else walkEntries (path ++ [n]) children
def walkEntries : List String → FsEntries → List (List String × String)
  | _, .nil => []
  | path, .cons e rest => walkEntry path e ++ walkEntries path rest
end

/-- All files the orchestrator's walk visits in a run tree. -/
def walkRun (children : FsEntries) : List (List String × String) :=
  walkEntries [] children

mutual
/-- The unfiltered traversal (every file in the tree), for comparison. -/
def allEntry : List String → FsEntry → List (List String × String)
  | path, .file n => [(path, n)]
  | path, .dir n children => allEntries (path ++ [n]) children
def allEntries : List String → FsEntries → List (List String × String)
  | _, .nil => []
  | path, .cons e rest => allEntry path e ++ allEntries path rest
end

/-- `process_run._is_single_file_run`: if the run directory holds exactly
one processable top-level file (unsupported and noise excluded), its stem. -/
def is_single_file_run (entries : FsEntries) : Option String :=
  let files := entries.toList.filterMap fun e =>
    match e with
    | .file n => some n
    | .dir _ _ => none
  let procs := files.filter fun n =>
    route_ext n ∈ [RouteKind.pdf, RouteKind.doc, RouteKind.txt, RouteKind.img]
  match procs with
  | [e] => some (nameStem e)
  | _ => none

/-- `process_run._csv_path_for_run` (name of the catalog file inside the
output directory). -/
def csv_name_for_run (runName : String) (singleFileName : Option String) : String :=
  match singleFileName with
  | some s => s ++ ".csv"
  | none => runName ++ ".csv"

-- ---------- CSV rendering (csv.writer with QUOTE_ALL vs default) ----------

/-- Does `csv.writer`'s default QUOTE_MINIMAL mode need to quote a field? -/
def csvNeedsQuote (s : String) : Bool :=
  s.data.any fun c => c == ',' || c == '"' || c == '\n' || c == '\r'

/-- CSV quote-escaping: embedded double quotes are doubled. -/
def csvEscape (s : String) : String :=
  ⟨(s.data.map fun c => if c == '"' then ['"', '"'] else [c]).flatten⟩

/-- Rendering of one CSV field; `quoteAll` selects csv.QUOTE_ALL. -/
def csvRenderField (quoteAll : Bool) (s : String) : String :=
  if quoteAll || csvNeedsQuote s then "\"" ++ csvEscape s ++ "\"" else s

/-- `common.CsvWriter.row`: normalise and append one 6-field QUOTE_ALL row.
`method` falls back to `"unknown"` when empty; `used_ocr` renders via
`str(bool(x)).lower()`; the reliability field is `%.2f` (pass_img hands in
an already-`%.2f` string, which `float(...)` round-trips unchanged). -/
def csvwriter_row (filename page text method : String) (used_ocr : Bool)
    (reliability : Score) : List String :=
  [filename, page, text,
   if method = "" then "unknown" else method,
   if used_ocr then "true" else "false",
   fmt2 reliability]

-- ---------- common.move_to_manual and the review manifest ----------

/-- Result of `common.move_to_manual`: where the file lands and the
3-field row the `finally:` block appends to `review_manifest.csv`. -/
structure ManualMove where
  dst : String
  manifestRow : List String
deriving DecidableEq

def move_to_manual (filePath outDir reason : String) (note : String := "") : ManualMove :=
  let base := pathName filePath
  { dst := outDir ++ "/Mandatory Review/" ++ base
    manifestRow := [base, reason, note] }

/-- The 2-field data row `process_run._append_review_manifest` appends
(a `filename,reason` header is written once when the manifest is new). -/
def append_review_manifest_row (relpath reason : String) : List String :=
  [relpath, reason]

-- ---------- output_writer.py ----------

/-- Inputs of `output_writer.write_result` that come from the filesystem,
environment and clock: the resolved original path, the INPUT_DIR-relative
path computed by `_compute_paths` (with its basename fallback), the UTC
timestamp, and the run id (the catalog file's stem). -/
structure PathInfo where
  origAbs : String
  relative_path : String
  processed_at : String
  run_id : String

/-- The arguments a pass script hands to `output_writer.write_result`. -/
structure WriterArgs where
  pages : List (Nat × String)
  pass_used : String
  score : Option Score
  status : String
  used_ocr : Bool
  notes : String := ""
deriving DecidableEq

/-- `if text and str(text).strip():` — a page contributes usable text. -/
def pageHasText (t : String) : Bool := (t != "") && (pyStrip t != "")

/-- write_result's `has_text`: some page has non-whitespace text. -/
def has_text (pages : List (Nat × String)) : Bool :=
  pages.any fun pr => pageHasText pr.2

/-- The lines a single page contributes to the document block. -/
def pageLines (pr : Nat × String) : List String :=
  ["=== [PAGE " ++ toString pr.1 ++ "] ===", ""]
    ++ (if pr.2 != "" then [pr.2] else [])
    ++ [""]

/-- write_result's document block: metadata header lines, a blank line,
then the page blocks; joined with `\n` plus a trailing newline. -/
def doc_text_block (p : PathInfo) (a : WriterArgs) : String :=
  let headerLines := [
    "# original_file: " ++ p.origAbs,
    "# original_name: " ++ pathName p.origAbs,
    "# relative_path: " ++ p.relative_path,
    "# pages: " ++ toString a.pages.length,
    "# processed_at: " ++ p.processed_at,
    "# pass_used: " ++ a.pass_used,
    "# score: " ++ (match a.score with | some s => floatRepr s | none => "None"),
    "# status: " ++ a.status]
  let contentLines := headerLines ++ [""] ++ (a.pages.map pageLines).flatten
  String.intercalate "\n" contentLines ++ "\n"

/-- What one `write_result` call produces (on the I/O-success path; a
failing `.txt` write would clear the row's `txt_relative_path`, and a
failing catalog append is logged and swallowed). -/
structure WriteOutcome where
  row : List String
  txtWritten : Option (String × String)
  chunkBlock : Option String
deriving DecidableEq

/-- `output_writer.write_result`: per-document `.txt` (only when some page
has non-whitespace text), the combined-chunk block, and the single
12-field catalog row appended with QUOTE_ALL. -/
def write_result (p : PathInfo) (a : WriterArgs) : WriteOutcome :=
  let txt_relative_path := withSuffixTxt p.relative_path
  let ht := has_text a.pages
  let txtRelStr := if ht then txt_relative_path else ""
  let blk := doc_text_block p a
  { row := [p.origAbs, pathName p.origAbs, p.relative_path, txtRelStr,
      toString a.pages.length, p.processed_at, a.pass_used,
      (match a.score with | some s => fmt2 s | none => ""),
      a.status, (if a.used_ocr then "true" else "false"), p.run_id, a.notes]
    txtWritten := if ht then some (txt_relative_path, blk) else none
    chunkBlock := if ht then some blk else none }

-- ---------- combined-chunk selection (output_writer._pick_combined_path) ----------

/-- The literal separator appended after every document block. -/
def BREAK_MARK : String := "----- DOCUMENT BREAK -----\n\n"

/-- A combined chunk file: the decimal digits of its numeric filename
suffix (e.g. `[0,0,1]` for `..._all_text_001.txt`), its byte size, and the
byte sizes of the document blocks appended to it (for bookkeeping). -/
structure Chunk where
  name : List Nat
  size : Nat
  docs : List Nat
deriving DecidableEq

/-- Strict lexicographic order on digit lists.  This is exactly the
`sorted(...)` filename order of the chunk files: all names share the
`<parent>_all_text_` part, and since `'.'` of `.txt` precedes every
digit, a digit list that is a proper sublist-from-the-start of another
also sorts before it. -/
def lexLt : List Nat → List Nat → Bool
  | [], [] => false
  | [], _ :: _ => true
  | _ :: _, [] => false
  | a :: as, b :: bs => if a < b then true else if b < a then false else lexLt as bs

/-- The lexicographically last chunk (`sorted(existing)[-1]`); when names
are distinct this fold agrees with the sorted list's last element. -/
def currentChunk (cs : List Chunk) : Option Chunk :=
  cs.foldl
    (fun acc c =>
      match acc with
      | none => some c
      | some m => if lexLt m.name c.name then some c else some m)
    none

/-- `f"{idx:03d}"`: decimal digits left-padded with zeros to width 3. -/
def fmtIdx (n : Nat) : List Nat :=
  List.replicate (3 - (natDigits n).length) 0 ++ natDigits n

/-- `output_writer._pick_combined_path`, reduced to the numeric suffix of
the target chunk file: reuse the highest-sorting chunk when the block
fits under `maxB`, else open `<current suffix value>+1` (the suffix of a
model chunk always parses, so `int(parts[1])` never falls back to the
count-based index). -/
def pick_combined_name (st : List Chunk) (docBytes maxB : Nat) : List Nat :=
  match currentChunk st with
  | none => fmtIdx 1
  | some cur =>
      if cur.size + docBytes ≤ maxB then cur.name
      else fmtIdx (digitsVal cur.name + 1)

/-- Appending one document block of `docBytes` bytes: write_result appends
the block plus `BREAK_MARK` to the picked file (creating it if new). -/
def combined_append (st : List Chunk) (docBytes maxB : Nat) : List Chunk :=
  let nm := pick_combined_name st docBytes maxB
  let add := docBytes + BREAK_MARK.utf8ByteSize
  if st.any (fun c => c.name == nm) then
    st.map fun c =>
      if c.name == nm then { c with size := c.size + add, docs := c.docs ++ [docBytes] }
      else c
  else st ++ [⟨nm, add, [docBytes]⟩]

/-- The chunk state after appending a run's document blocks in order,
starting from an empty output directory. -/
def runChunks (blocks : List Nat) (maxB : Nat) : List Chunk :=
  blocks.foldl (fun st b => combined_append st b maxB) []

-- ---------- common.py PDF helpers ----------

/-- `common.extract_text_layer` with `_clamp_page_index_for_fitz`: the
1-based page index tolerates an accidental 0 (bumped to 1) and is clamped
to the page count; failures and empty documents give `""`. -/
def extract_text_layer (pdfPages : List String) (pageIndex : Nat) : String :=
  let total := pdfPages.length
  if total = 0 then ""
  else
    let p := if pageIndex = 0 then 1 else min pageIndex total
    pdfPages.getD (p - 1) ""

/-- `common.sample_page_indices`: up to `target` evenly spaced 1-based
indices (Python's float `step*i` idealised as the exact rational with
half-even rounding); deduplicated, padded with the smallest missing
indices when rounding collides, and sorted. -/
def sample_page_indices (totalPages : Nat) (target : Nat) : List Nat :=
  let n := totalPages
  let t := max 1 target
  if n ≤ t then List.range' 1 n
  else
    let picks0 := (List.range' 1 t).map fun i => max 1 (min n (rndDiv (n * i) (t + 1)))
    let picks := dedupAdj (sortAsc picks0)
    let missing := ((List.range' 1 n).filter fun j => ¬ j ∈ picks).take (t - picks.length)
    sortAsc (picks ++ missing)

/-- `common.likely_scan_only` on a list of page samples (the branch
`pass_pdf_txt.run` exercises): join with spaces, then require at least 40
stripped characters and reliability ≥ 0.15. -/
def likely_scan_only (samples : List String) : Bool :=
  match samples with
  | [] => true
  | _ :: _ =>
      let text := String.intercalate " " samples
      if (pyStrip text).length < 40 then true
      else score_reliability text < 3000

-- ---------- pass payloads (the dicts returned by the PDF pass modules) ----------

structure PerPageRow where
  page : Nat
  text : String
  reliability : Score
deriving DecidableEq

/-- The two payload shapes: `{"text":…, "reliability":…}` (per-doc) and
`{"pages": [...]}` (per-page — note: no document-level reliability key). -/
inductive Payload where
  | perDoc (text : String) (reliability : Score)
  | perPage (pages : List PerPageRow)
deriving DecidableEq

inductive PdfMode where
  | perDoc
  | perPage
deriving DecidableEq

-- ---------- pass_pdf_txt.py ----------

/-- `pass_pdf_txt.run` on the PDF's native text layers.  The `_per_page`
loop iterates `i in range(total_pages)` — a 0-based index that
`extract_text_layer` clamps, so row `i+1` actually carries the text of
page `max(i,1)`.  A zero-page document is rejected (in the scripts,
`pdf_page_count` raises and the caller treats the exception as a reject). -/
def pass_pdf_txt_run (pdfPages : List String) (mode : PdfMode) (cutoff : Score) :
    Option Payload :=
  let total := pdfPages.length
  let idxs := sample_page_indices total (min 6 total)
  let samples := idxs.map fun i => extract_text_layer pdfPages i
  if likely_scan_only samples then none
  else
    let rows := (List.range total).map fun i =>
      let text := extract_text_layer pdfPages i
      PerPageRow.mk (i + 1) text (score_reliability text)
    let med := if rows = [] then 0 else median (rows.map (·.reliability))
    match mode with
    | .perPage => if cutoff ≤ med then some (.perPage rows) else none
    | .perDoc =>
        let docText := String.intercalate "\n" (rows.map (·.text))
        if cutoff ≤ med then some (.perDoc docText med) else none

-- ---------- pass_pdf_ocr_a.py / pass_pdf_ocr_b.py ----------

/-- `pass_pdf_ocr_a.run` on the per-page OCR output (rendering at 300 DPI
grayscale and the OCR call are external; page `i` is rendered 0-based,
with errors already folded to `("", 0.0)` in the input). -/
def ocr_a_run (ocrTexts : List String) (mode : PdfMode) (cutoff : Score) :
    Option Payload :=
  let rows := (List.range ocrTexts.length).map fun i =>
    let text := ocrTexts.getD i ""
    PerPageRow.mk (i + 1) text (score_reliability text)
  let med := if rows = [] then 0 else median (rows.map (·.reliability))
  match mode with
  | .perPage => if cutoff ≤ med then some (.perPage rows) else none
  | .perDoc =>
      let docText := String.intercalate "\n" (rows.map (·.text))
      if cutoff ≤ med then some (.perDoc docText med) else none

/-- The shared loop body of `pass_pdf_ocr_b._best_ocr_text` and
`pass_img._run_ocr_variants`: score the candidate text and keep it only
when strictly more reliable than the best so far. -/
def bestStep (best : String × Score) (t : String) : String × Score :=
  let r := score_reliability t
  if best.2 < r then (t, r) else best

/-- `pass_pdf_ocr_b._best_ocr_text`: best `(text, reliability)` over the
rotation candidates, replacing only on strictly better reliability. -/
def best_ocr_text (cands : List String) : String × Score :=
  cands.foldl bestStep ("", 0)

/-- `pass_pdf_ocr_b.run` on the per-page rotation OCR outputs (each inner
list holds the OCR text of the 400 DPI render at rotations 0/90/270). -/
def ocr_b_run (rotTexts : List (List String)) (mode : PdfMode) (cutoff : Score) :
    Option Payload :=
  let rows := (List.range rotTexts.length).map fun i =>
    let best := best_ocr_text (rotTexts.getD i [])
    PerPageRow.mk (i + 1) best.1 best.2
  let med := if rows = [] then 0 else median (rows.map (·.reliability))
  match mode with
  | .perPage => if cutoff ≤ med then some (.perPage rows) else none
  | .perDoc =>
      let docText := String.intercalate "\n" (rows.map (·.text))
      if cutoff ≤ med then some (.perDoc docText med) else none

-- ---------- pass_pdf.py (the cascade orchestrator) ----------

/-- Env-configurable thresholds of `pass_pdf.main` (defaults 0.80 / 0.70 /
0.60 / 50 MB / 500 pages, in `Score` units where applicable). -/
structure PdfConfig where
  passTxtCutoff : Score := 16000
  passOcrACutoff : Score := 14000
  passOcrBCutoff : Score := 12000
  bigSizeLimitMB : Nat := 50
  bigPageLimit : Nat := 500
deriving DecidableEq

/-- External-world inputs of one `pass_pdf.main` invocation. -/
structure PdfInput where
  pagesOk : Bool                 -- pdf_page_count succeeded
  sizeMB : Nat                   -- ceil(file size / 1MiB)
  txtLayer : List String         -- native text layer of pages 1..n
  ocrA : List String             -- OCR-A text per page
  ocrB : List (List String)      -- OCR-B texts per page and rotation
  workFreeMB : Option Nat        -- none models `_get_free_mb` = -1 (unknown)
deriving DecidableEq

/-- What a pass script does overall: its `write_result` calls in order and
its exit code. -/
structure PassOutput where
  calls : List WriterArgs
  exitCode : Nat
deriving DecidableEq

/-- `pass_pdf.main`'s payload handling, shared by its three accept
branches: a per-doc payload becomes one synthetic page #1 scored with the
payload's document-level reliability; a per-page payload lists its pages,
and — having no document-level `"reliability"` key — its score falls back
to `max(per-page reliabilities, default=0.0)`. -/
def writer_args_of_payload (payload : Payload) (passName : String) (usedOcr : Bool) :
    WriterArgs :=
  match payload with
  | .perDoc text rel => ⟨[(1, text)], passName, some rel, "OK", usedOcr, ""⟩
  | .perPage rows =>
      ⟨rows.map (fun r => (r.page, r.text)), passName,
       some (maxD (rows.map (·.reliability))), "OK", usedOcr, ""⟩

/-- `pass_pdf.main`'s initial mode selection: per-page for big documents
(`size_mb >= BIGPDF_SIZE_LIMIT_MB or pages >= BIGPDF_PAGE_LIMIT`). -/
def pdf_initial_mode (cfg : PdfConfig) (sizeMB totalPages : Nat) : PdfMode :=
  if cfg.bigSizeLimitMB ≤ sizeMB ∨ cfg.bigPageLimit ≤ totalPages then .perPage
  else .perDoc

/-- The pre-OCR guard `free_mb >= 0 and free_mb < 1024` (unknown free
space — `_get_free_mb` returning -1 — does not block). -/
def pdf_low_disk (inp : PdfInput) : Bool :=
  match inp.workFreeMB with
  | some free => free < 1024
  | none => false

/-- `pass_pdf.main`: TXT → (mode forced to per-page) → low-disk guard →
OCR-A → OCR-B → all-failed ERROR row with exit 1. -/
def pass_pdf_main (cfg : PdfConfig) (inp : PdfInput) : PassOutput :=
  if ¬ inp.pagesOk then ⟨[], 1⟩
  else
    let mode0 := pdf_initial_mode cfg inp.sizeMB inp.txtLayer.length
    match pass_pdf_txt_run inp.txtLayer mode0 cfg.passTxtCutoff with
    | some payload => ⟨[writer_args_of_payload payload "pdf_text" false], 0⟩
    | none =>
        -- v0.1.4: switch to per-page once OCR is required
        if pdf_low_disk inp then ⟨[], 1⟩
        else
          match ocr_a_run inp.ocrA .perPage cfg.passOcrACutoff with
          | some payload => ⟨[writer_args_of_payload payload "pdf_ocr_a" true], 0⟩
          | none =>
              match ocr_b_run inp.ocrB .perPage cfg.passOcrBCutoff with
              | some payload => ⟨[writer_args_of_payload payload "pdf_ocr_b" true], 0⟩
              | none => ⟨[⟨[], "pdf_ocr_b", some 0, "ERROR", true, ""⟩], 1⟩

-- ---------- pass_txt.py ----------

/-- `pass_txt.main` after the file was read: the whole text is page 1 when
it has non-whitespace content, else no pages and status ERROR; always one
`write_result` call and exit 0.  (A failed `open` exits 1 beforehand with
no call.) -/
def pass_txt_main (text : String) : PassOutput :=
  let rel := score_reliability text
  let pages := if pyStrip text != "" then [(1, text)] else []
  let status := if pages ≠ [] then "OK" else "ERROR"
  ⟨[⟨pages, "txt", some rel, status, false, ""⟩], 0⟩

-- ---------- pass_img.py ----------

/-- One image frame's OCR attempts: the text of each successfully built
variant (grayscale, then grayscale+threshold), errors folded to `""`. -/
structure ImgFrame where
  variantTexts : List String
deriving DecidableEq

/-- `pass_img._run_ocr_variants`: best `(text, reliability)` over the
variants, replacing only on strictly better reliability. -/
def run_ocr_variants (f : ImgFrame) : String × Score :=
  f.variantTexts.foldl bestStep ("", 0)

/-- What `pass_img.main` does overall: its 6-column CsvWriter rows and its
exit code. -/
structure ImgOutput where
  rows : List (List String)
  exitCode : Nat
deriving DecidableEq

/-- `pass_img.main` after `Image.open` succeeded: one CsvWriter row per
frame — page column `str(i+1)` for multi-frame images and `"-"` otherwise,
method `img_ocr`, used_ocr true, the frame's best reliability — then exit
0 regardless of whether any text was found.  (A failed open exits 1 with
no rows.) -/
def pass_img_main (basename : String) (frames : List ImgFrame) : ImgOutput :=
  let n := frames.length
  let rows := (List.range n).map fun i =>
    let best := run_ocr_variants (frames.getD i ⟨[]⟩)
    csvwriter_row basename (if 1 < n then toString (i + 1) else "-") best.1
      "img_ocr" true best.2
  ⟨rows, 0⟩

-- ---------- pass_doc.py ----------

structure DocConfig where
  passDocCutoff : Score := 15000
  passDocxCutoff : Score := 14000
deriving DecidableEq

/-- External-world inputs of one `pass_doc.main` invocation. -/
structure DocInput where
  isDocx : Bool                        -- ".docx" vs ".doc"
  extracted : Option String            -- native text; none = extraction raised
  convertedPdf : Option (List String)  -- DOC→PDF text layers; none = conversion failed
deriving DecidableEq

/-- `pass_doc._fallback_via_pdf`: convert to PDF, run the TXT pass per-doc
with cutoff 0, and accept any non-whitespace text, rescored. -/
def fallback_via_pdf (converted : Option (List String)) : Option (String × Score) :=
  match converted with
  | none => none
  | some pdfPages =>
      match pass_pdf_txt_run pdfPages .perDoc 0 with
      | some (.perDoc text _) =>
          if pyStrip text = "" then none else some (text, score_reliability text)
      | _ => none

/-- `pass_doc.main`: native extraction gated by non-whitespace text and the
per-extension cutoff; on rejection the DOC→PDF→TXT fallback; otherwise an
ERROR row and exit 1.  Every path makes exactly one `write_result` call. -/
def pass_doc_main (cfg : DocConfig) (inp : DocInput) : PassOutput :=
  let method := if inp.isDocx then "docx_text" else "doc_text"
  let cutoff := if inp.isDocx then cfg.passDocxCutoff else cfg.passDocCutoff
  match inp.extracted with
  | none => ⟨[⟨[], "doc_extract_error", some 0, "ERROR", false, ""⟩], 1⟩
  | some text =>
      let rel := score_reliability text
      if pyStrip text != "" && cutoff ≤ rel then
        ⟨[⟨[(1, text)], method, some rel, "OK", false, ""⟩], 0⟩
      else
        match fallback_via_pdf inp.convertedPdf with
        | some fb => ⟨[⟨[(1, fb.1)], "doc_pdf_text", some fb.2, "OK", false, ""⟩], 0⟩
        | none => ⟨[⟨[], method, some rel, "ERROR", false, ""⟩], 1⟩

-- ---------- process_run.py main loop: handling of one walked file ----------

/-- The orchestrator's terminal handling of one walked file: which pass
kind (if any) was dispatched, whether the source was deleted, the rows
appended to `review_manifest.csv`, and where the file was moved.
`passRc` is the dispatched pass's exit code (ignored for noise and
unsupported files, which never reach a pass). -/
structure FileHandling where
  passDispatched : Option RouteKind
  deletedSource : Bool
  manifestRows : List (List String)
  movedTo : Option String
deriving DecidableEq

def handle_file (relpath fname outDir : String) (passRc : Nat) : FileHandling :=
  match route_ext fname with
  | .noiseDelete => ⟨none, true, [], none⟩
  | .unsupported =>
      let mv := move_to_manual fname outDir "unsupported"
      ⟨none, false,
       [append_review_manifest_row relpath "unsupported", mv.manifestRow],
       some mv.dst⟩
  | k =>
      if passRc = 0 then ⟨some k, true, [], none⟩
      else
        let reason := "pass rc=" ++ toString passRc
        let mv := move_to_manual fname outDir reason
        ⟨some k, false,
         [append_review_manifest_row relpath reason, mv.manifestRow],
         some mv.dst⟩

-- ===================== helper lemmas =====================

theorem bestStep_snd_le (b : String × Score) (t : String) : b.2 ≤ (bestStep b t).2 := by
  by_cases h : b.2 < score_reliability t
  · have hb : bestStep b t = (t, score_reliability t) := by simp [bestStep, h]
    rw [hb]
    exact Nat.le_of_lt h
  · have hb : bestStep b t = b := by simp [bestStep, h]
    rw [hb]

theorem bestFold_snd_le (l : List String) (b : String × Score) :
    b.2 ≤ (l.foldl bestStep b).2 := by
  induction l generalizing b with
  | nil => simp
  | cons t ts ih =>
      exact le_trans (bestStep_snd_le b t) (ih (bestStep b t))

theorem bestFold_ge_of_mem (l : List String) :
    ∀ (b : String × Score) (t : String), t ∈ l →
      score_reliability t ≤ (l.foldl bestStep b).2 := by
  induction l with
  | nil => intro b t ht; cases ht
  | cons x xs ih =>
      intro b t ht
      rcases List.mem_cons.mp ht with rfl | hmem
      · have h1 : score_reliability t ≤ (bestStep b t).2 := by
          by_cases h : b.2 < score_reliability t
          · simp [bestStep, h]
          · simp only [bestStep, if_neg h]
            exact Nat.le_of_not_lt h
        exact le_trans h1 (bestFold_snd_le xs (bestStep b t))
      · exact ih (bestStep b x) t hmem

-- ===================== claim C1 =====================

/-- C1 counterexample: the claim says every file dispatched to a pass gets
exactly one catalog row; the image pass writes one `CsvWriter` row per
frame, so a 2-frame TIFF gets two rows, both naming the file. -/
theorem C1_counterexample :
    (pass_img_main "multi.tif" [⟨["ab"]⟩, ⟨["cd"]⟩]).rows.length = 2
    ∧ ((pass_img_main "multi.tif" [⟨["ab"]⟩, ⟨["cd"]⟩]).rows.map fun r => r.getD 0 "")
        = ["multi.tif", "multi.tif"]
    ∧ ¬ (2 : Nat) = 1 := by decide

/-- C1 (amended): the txt and doc passes make exactly one writer call per
invocation; the PDF pass makes exactly one once the page count is known
and the disk guard passes; the image pass appends exactly one row per
frame (so multi-frame inputs get several rows, and passes that abort
before reaching the writer append none). -/
theorem C1_rows_per_dispatch :
    (∀ text, (pass_txt_main text).calls.length = 1)
    ∧ (∀ cfg inp, (pass_doc_main cfg inp).calls.length = 1)
    ∧ (∀ cfg inp, inp.pagesOk = true → pdf_low_disk inp = false →
        (pass_pdf_main cfg inp).calls.length = 1)
    ∧ (∀ basename frames, (pass_img_main basename frames).rows.length = frames.length) := by
  refine ⟨fun text => rfl, fun cfg inp => ?_, fun cfg inp hOk hDisk => ?_, fun b fr => ?_⟩
  · simp only [pass_doc_main]
    repeat' split
    all_goals rfl
  · simp only [pass_pdf_main, hOk, hDisk]
    repeat' split
    all_goals simp_all
  · simp [pass_img_main]

/-- Witness for C1 (amended), at a PDF input where every pass fails. -/
theorem C1_rows_per_dispatch_witness :
    (pass_pdf_main {} ⟨true, 0, [], [], [], none⟩).calls.length = 1 :=
  C1_rows_per_dispatch.2.2.1 {} ⟨true, 0, [], [], [], none⟩ rfl rfl

-- ===================== claim C2 =====================

/-- C2 counterexample: the header seeded by
`process_run._write_header_if_needed` has 6 fields, not 12. -/
theorem C2_counterexample : CSV_HEADER.length = 6 ∧ ¬ CSV_HEADER.length = 12 := by
  decide

/-- C2 (amended): the catalog's first line is the 6-field legacy header
`filename,page,text,method,used_ocr,reliability`, written with default
minimal quoting (hence unquoted); every row the output writer appends has
exactly 12 fields, each rendered double-quoted (QUOTE_ALL). -/
theorem C2_catalog_format :
    CSV_HEADER.length = 6
    ∧ CSV_HEADER.map (csvRenderField false) = CSV_HEADER
    ∧ ∀ (p : PathInfo) (a : WriterArgs),
        (write_result p a).row.length = 12
        ∧ ∀ f ∈ (write_result p a).row.map (csvRenderField true),
            ∃ t, f = "\"" ++ t ++ "\"" := by
  refine ⟨by decide, by decide, fun p a => ⟨by simp [write_result], ?_⟩⟩
  intro f hf
  rcases List.mem_map.mp hf with ⟨x, _, rfl⟩
  exact ⟨csvEscape x, by simp [csvRenderField]⟩

/-- Witness for C2 (amended): a concrete rendered field is quoted. -/
theorem C2_catalog_format_witness :
    ∃ t, csvRenderField true "ERROR" = "\"" ++ t ++ "\"" :=
  (C2_catalog_format.2.2 ⟨"/i/a.txt", "a.txt", "ts", "r"⟩
      ⟨[], "txt", none, "ERROR", false, ""⟩).2
    (csvRenderField true "ERROR") (by decide)

-- ===================== claim C4 =====================

/-- C4 counterexample: the claim says the image pass aggregates frames
into one result with pages numbered 1..n and a status; `pass_img.main`
instead writes bare 6-column rows, and for a single-frame image the page
column is `"-"`, not `"1"` (no status field exists at all). -/
theorem C4_counterexample :
    (pass_img_main "scan.tif" [⟨["hello", "hello!"]⟩]).rows
      = [["scan.tif", "-", "hello", "img_ocr", "true", "1.00"]]
    ∧ ¬ ("-" : String) = "1" := by decide

/-- C4 (amended): the image pass writes one 6-column row per frame — page
column `str(i+1)` only when there are several frames, else `"-"`; method
`img_ocr`; used_ocr `true`; the frame's best-of-variants reliability,
which dominates every variant's score — and exits 0 with no status
aggregation. -/
theorem C4_img_rows_per_frame (basename : String) (frames : List ImgFrame) :
    (pass_img_main basename frames).exitCode = 0
    ∧ (pass_img_main basename frames).rows.length = frames.length
    ∧ (∀ i, i < frames.length →
        (pass_img_main basename frames).rows.getD i []
          = csvwriter_row basename
              (if 1 < frames.length then toString (i + 1) else "-")
              (run_ocr_variants (frames.getD i ⟨[]⟩)).1 "img_ocr" true
              (run_ocr_variants (frames.getD i ⟨[]⟩)).2)
    ∧ (∀ i, ∀ t ∈ (frames.getD i ⟨[]⟩).variantTexts,
        score_reliability t ≤ (run_ocr_variants (frames.getD i ⟨[]⟩)).2) := by
  refine ⟨rfl, by simp [pass_img_main], fun i hi => ?_, fun i t ht => ?_⟩
  · simp [pass_img_main, List.getD_eq_getElem?_getD, hi]
  · exact bestFold_ge_of_mem _ _ t ht

/-- Witness for C4 (amended), at a concrete 2-frame image. -/
theorem C4_img_rows_per_frame_witness :
    (pass_img_main "m.tif" [⟨["ab"]⟩, ⟨["c d"]⟩]).rows.getD 1 []
      = ["m.tif", "2", "c d", "img_ocr", "true", "0.67"] := by
  have h := (C4_img_rows_per_frame "m.tif" [⟨["ab"]⟩, ⟨["c d"]⟩]).2.2.1 1 (by decide)
  rw [h]
  decide

-- ===================== claim C8 =====================

/-- C8 counterexample: an unsupported file gets TWO review-manifest rows
(one from the orchestrator, one from `move_to_manual`), not exactly one. -/
theorem C8_counterexample :
    (handle_file "d.xlsx" "d.xlsx" "/data/output/run" 0).manifestRows.length = 2
    ∧ ¬ (handle_file "d.xlsx" "d.xlsx" "/data/output/run" 0).manifestRows.length = 1 := by
  decide

/-- C8 (amended): for an unsupported file the orchestrator appends the
2-field row `(relpath, "unsupported")`, then `move_to_manual` appends the
3-field row `(basename, "unsupported", "")` and moves the file to
`<output>/Mandatory Review/<basename>`; no pass is dispatched, so no
catalog row is written and the source is not deleted. -/
theorem C8_unsupported_two_manifest_rows (relpath fname outDir : String) (rc : Nat)
    (h : route_ext fname = RouteKind.unsupported) :
    handle_file relpath fname outDir rc
      = ⟨none, false,
         [[relpath, "unsupported"], [pathName fname, "unsupported", ""]],
         some (outDir ++ "/Mandatory Review/" ++ pathName fname)⟩ := by
  simp [handle_file, h, move_to_manual, append_review_manifest_row]

/-- Witness for C8 (amended) at `d.xlsx`. -/
theorem C8_unsupported_two_manifest_rows_witness :
    handle_file "d.xlsx" "d.xlsx" "/out" 0
      = ⟨none, false, [["d.xlsx", "unsupported"], ["d.xlsx", "unsupported", ""]],
         some "/out/Mandatory Review/d.xlsx"⟩ := by
  rw [C8_unsupported_two_manifest_rows "d.xlsx" "d.xlsx" "/out" 0 (by decide)]
  decide

-- ===================== claim C9 =====================

/-- C9 counterexample: `score_reliability "Hello World"` is 0.9091 (the
space is not alphanumeric), so the catalog row's score field is `"0.91"`,
not the claimed `"1.00"`. -/
theorem C9_counterexample :
    (write_result ⟨"/data/input/one/one.txt", "one/one.txt", "ts", "one"⟩
        ((pass_txt_main "Hello World").calls.getD 0 ⟨[], "", none, "", false, ""⟩)).row.getD 7 ""
      = "0.91"
    ∧ ¬ ("0.91" : String) = "1.00" := by decide

/-- C9 (amended): a run whose only processable top-level file is `one.txt`
catalogs to `one.csv`, and for content `"Hello World"` the txt pass exits
0 with one writer call — pass `txt`, status `OK`, one page, no OCR, score
0.9091 — whose catalog row reads pages `"1"`, score `"0.91"`, used_ocr
`"false"`, with the `.txt` artifact at the relative path. -/
theorem C9_single_txt_run :
    is_single_file_run (.cons (.file "one.txt") .nil) = some "one"
    ∧ csv_name_for_run "run" (some "one") = "one.csv"
    ∧ pass_txt_main "Hello World"
        = ⟨[⟨[(1, "Hello World")], "txt", some 18182, "OK", false, ""⟩], 0⟩
    ∧ ∀ p : PathInfo,
        (write_result p ⟨[(1, "Hello World")], "txt", some 18182, "OK", false, ""⟩).row
          = [p.origAbs, pathName p.origAbs, p.relative_path,
             withSuffixTxt p.relative_path, "1", p.processed_at, "txt", "0.91",
             "OK", "false", p.run_id, ""] := by
  refine ⟨by decide, by decide, by decide, ?_⟩
  intro p
  have hht : has_text [(1, "Hello World")] = true := by decide
  have h2 : fmt2 (18182 : Score) = "0.91" := by decide
  simp [write_result, hht, h2]
  rfl

-- ===================== claim C10 =====================

/-- C10: a `.txt` input whose content is empty or all-whitespace yields a
catalog row with status ERROR and no `.txt` artifact, yet the pass exits 0,
so the orchestrator deletes the source and appends nothing to the review
manifest. -/
theorem C10_blank_txt_error_row_deleted (text : String) (p : PathInfo)
    (relpath fname outDir : String)
    (hBlank : pyStrip text = "") (hRoute : route_ext fname = RouteKind.txt) :
    pass_txt_main text
      = ⟨[⟨[], "txt", some (score_reliability text), "ERROR", false, ""⟩], 0⟩
    ∧ (write_result p ⟨[], "txt", some (score_reliability text), "ERROR", false, ""⟩).txtWritten
        = none
    ∧ (write_result p ⟨[], "txt", some (score_reliability text), "ERROR", false, ""⟩).row.getD 3 "?"
        = ""
    ∧ handle_file relpath fname outDir 0 = ⟨some RouteKind.txt, true, [], none⟩ := by
  refine ⟨?_, ?_, ?_, ?_⟩
  · simp [pass_txt_main, hBlank]
  · simp [write_result, has_text]
  · simp [write_result, has_text]
  · simp [handle_file, hRoute]

/-- Witness for C10 at a one-space file. -/
theorem C10_blank_txt_error_row_deleted_witness :
    pass_txt_main " " = ⟨[⟨[], "txt", some 0, "ERROR", false, ""⟩], 0⟩
    ∧ handle_file "b.txt" "b.txt" "/out" 0 = ⟨some RouteKind.txt, true, [], none⟩ := by
  have h := C10_blank_txt_error_row_deleted " " ⟨"a", "b", "c", "d"⟩ "b.txt" "b.txt" "/out"
    (by decide) (by decide)
  have hs : score_reliability " " = 0 := by decide
  refine ⟨?_, h.2.2.2⟩
  have h1 := h.1
  rw [hs] at h1
  exact h1

-- ===================== claim C3 =====================

/-- C3 counterexample: a 3-page scan-only PDF (empty text layers) whose
OCR-A page reliabilities are 1.0 / 0.9 / 0.8 is accepted per-page by
OCR-A (median 0.9 ≥ 0.70), but the recorded score is the maximum 1.0, not
the median 0.9. -/
theorem C3_counterexample :
    (pass_pdf_main {}
        ⟨true, 0, ["", "", ""],
         [⟨List.replicate 50 'a'⟩,
          ⟨List.replicate 45 'b' ++ List.replicate 5 ' '⟩,
          ⟨List.replicate 40 'c' ++ List.replicate 10 ' '⟩],
         [], some 2048⟩).calls.map (fun a => (a.pass_used, a.score))
      = [("pdf_ocr_a", some 20000)]
    ∧ ocr_a_run
        [⟨List.replicate 50 'a'⟩,
         ⟨List.replicate 45 'b' ++ List.replicate 5 ' '⟩,
         ⟨List.replicate 40 'c' ++ List.replicate 10 ' '⟩] .perPage 14000
      = some (.perPage
          [⟨1, ⟨List.replicate 50 'a'⟩, 20000⟩,
           ⟨2, ⟨List.replicate 45 'b' ++ List.replicate 5 ' '⟩, 18000⟩,
           ⟨3, ⟨List.replicate 40 'c' ++ List.replicate 10 ' '⟩, 16000⟩])
    ∧ median [20000, 18000, 16000] = 18000
    ∧ ¬ (some (20000 : Score) : Option Score) = some 18000 := by decide

/-- C3 (amended): whenever a PDF pass accepts in per-page mode, its
payload is `{"pages": [...]}` with no document-level reliability, so the
score `pass_pdf.main` hands to the output writer is the MAXIMUM of the
per-page reliabilities (`max(..., default=0.0)`), not their median. -/
theorem C3_per_page_score_is_max (cfg : PdfConfig) (inp : PdfInput)
    (hOk : inp.pagesOk = true) :
    (∀ rows,
      pass_pdf_txt_run inp.txtLayer (pdf_initial_mode cfg inp.sizeMB inp.txtLayer.length)
          cfg.passTxtCutoff = some (.perPage rows) →
      (pass_pdf_main cfg inp).calls.map (fun a => (a.pass_used, a.score))
        = [("pdf_text", some (maxD (rows.map (·.reliability))))])
    ∧ (∀ rows,
      pass_pdf_txt_run inp.txtLayer (pdf_initial_mode cfg inp.sizeMB inp.txtLayer.length)
          cfg.passTxtCutoff = none →
      pdf_low_disk inp = false →
      ocr_a_run inp.ocrA .perPage cfg.passOcrACutoff = some (.perPage rows) →
      (pass_pdf_main cfg inp).calls.map (fun a => (a.pass_used, a.score))
        = [("pdf_ocr_a", some (maxD (rows.map (·.reliability))))])
    ∧ (∀ rows,
      pass_pdf_txt_run inp.txtLayer (pdf_initial_mode cfg inp.sizeMB inp.txtLayer.length)
          cfg.passTxtCutoff = none →
      pdf_low_disk inp = false →
      ocr_a_run inp.ocrA .perPage cfg.passOcrACutoff = none →
      ocr_b_run inp.ocrB .perPage cfg.passOcrBCutoff = some (.perPage rows) →
      (pass_pdf_main cfg inp).calls.map (fun a => (a.pass_used, a.score))
        = [("pdf_ocr_b", some (maxD (rows.map (·.reliability))))]) := by
  refine ⟨fun rows hTxt => ?_, fun rows hTxt hDisk hA => ?_,
    fun rows hTxt hDisk hA hB => ?_⟩
  · simp [pass_pdf_main, hOk, hTxt, writer_args_of_payload]
  · simp [pass_pdf_main, hOk, hTxt, hDisk, hA, writer_args_of_payload]
  · simp [pass_pdf_main, hOk, hTxt, hDisk, hA, hB, writer_args_of_payload]

/-- Witness for C3 (amended) at the 3-page OCR-A input. -/
theorem C3_per_page_score_is_max_witness :
    (pass_pdf_main {}
        ⟨true, 0, ["", "", ""],
         [⟨List.replicate 50 'a'⟩,
          ⟨List.replicate 45 'b' ++ List.replicate 5 ' '⟩,
          ⟨List.replicate 40 'c' ++ List.replicate 10 ' '⟩],
         [], some 2048⟩).calls.map (fun a => (a.pass_used, a.score))
      = [("pdf_ocr_a",
          some (maxD ([⟨1, ⟨List.replicate 50 'a'⟩, 20000⟩,
            ⟨2, ⟨List.replicate 45 'b' ++ List.replicate 5 ' '⟩, 18000⟩,
            ⟨3, ⟨List.replicate 40 'c' ++ List.replicate 10 ' '⟩,
              16000⟩].map (PerPageRow.reliability ·))))] :=
  (C3_per_page_score_is_max {}
      ⟨true, 0, ["", "", ""],
       [⟨List.replicate 50 'a'⟩,
        ⟨List.replicate 45 'b' ++ List.replicate 5 ' '⟩,
        ⟨List.replicate 40 'c' ++ List.replicate 10 ' '⟩],
       [], some 2048⟩ rfl).2.1
    [⟨1, ⟨List.replicate 50 'a'⟩, 20000⟩,
     ⟨2, ⟨List.replicate 45 'b' ++ List.replicate 5 ' '⟩, 18000⟩,
     ⟨3, ⟨List.replicate 40 'c' ++ List.replicate 10 ' '⟩, 16000⟩]
    (by decide) rfl (by decide)

-- ===================== claim C6 =====================

mutual
/-- Every file `walkEntry` visits below an entry extends the incoming path
with components that are not (case-insensitively) "Mandatory Review". -/
theorem walkEntry_mr_free : ∀ (path : List String) (e : FsEntry)
    (pr : List String × String), pr ∈ walkEntry path e →
    ∃ suf, pr.1 = path ++ suf ∧ ∀ d ∈ suf, strLower d ≠ "mandatory review"
  | path, .file n, pr, h => by
      simp only [walkEntry, List.mem_singleton] at h
      subst h
      exact ⟨[], by simp⟩
  | path, .dir n children, pr, h => by
      rw [walkEntry] at h
      by_cases hn : strLower n = "mandatory review"
      · rw [if_pos hn] at h
        cases h
      · rw [if_neg hn] at h
        obtain ⟨suf, hsuf, hall⟩ := walkEntries_mr_free (path ++ [n]) children pr h
        refine ⟨n :: suf, by simpa [List.append_assoc] using hsuf, ?_⟩
        intro d hd
        rcases List.mem_cons.mp hd with rfl | hd'
        · exact hn
        · exact hall d hd'
theorem walkEntries_mr_free : ∀ (path : List String) (es : FsEntries)
    (pr : List String × String), pr ∈ walkEntries path es →
    ∃ suf, pr.1 = path ++ suf ∧ ∀ d ∈ suf, strLower d ≠ "mandatory review"
  | _, .nil, pr, h => by simp [walkEntries] at h
  | path, .cons e rest, pr, h => by
      rw [walkEntries] at h
      rcases List.mem_append.mp h with h1 | h2
      · exact walkEntry_mr_free path e pr h1
      · exact walkEntries_mr_free path rest pr h2
end

mutual
/-- Every file of the unfiltered traversal extends the incoming path. -/
theorem allEntry_path_extends : ∀ (path : List String) (e : FsEntry)
    (pr : List String × String), pr ∈ allEntry path e →
    ∃ suf, pr.1 = path ++ suf
  | path, .file n, pr, h => by
      simp only [allEntry, List.mem_singleton] at h
      subst h
      exact ⟨[], by simp⟩
  | path, .dir n children, pr, h => by
      rw [allEntry] at h
      obtain ⟨suf, hsuf⟩ := allEntries_path_extends (path ++ [n]) children pr h
      exact ⟨n :: suf, by simpa [List.append_assoc] using hsuf⟩
theorem allEntries_path_extends : ∀ (path : List String) (es : FsEntries)
    (pr : List String × String), pr ∈ allEntries path es →
    ∃ suf, pr.1 = path ++ suf
  | _, .nil, pr, h => by simp [allEntries] at h
  | path, .cons e rest, pr, h => by
      rw [allEntries] at h
      rcases List.mem_append.mp h with h1 | h2
      · exact allEntry_path_extends path e pr h1
      · exact allEntries_path_extends path rest pr h2
end

mutual
/-- Conversely, a file of the unfiltered traversal none of whose path
components lowercases to "mandatory review" is visited by the walk. -/
theorem allEntry_mem_walk : ∀ (path : List String) (e : FsEntry)
    (pr : List String × String), pr ∈ allEntry path e →
    (∀ d ∈ pr.1, strLower d ≠ "mandatory review") → pr ∈ walkEntry path e
  | path, .file n, pr, h, _ => by
      simpa [walkEntry, allEntry] using h
  | path, .dir n children, pr, h, hmr => by
      rw [allEntry] at h
      rw [walkEntry]
      obtain ⟨suf, hsuf⟩ := allEntries_path_extends (path ++ [n]) children pr h
      have hn : strLower n ≠ "mandatory review" := by
        refine hmr n ?_
        rw [hsuf]
        simp
      rw [if_neg hn]
      exact allEntries_mem_walk (path ++ [n]) children pr h hmr
theorem allEntries_mem_walk : ∀ (path : List String) (es : FsEntries)
    (pr : List String × String), pr ∈ allEntries path es →
    (∀ d ∈ pr.1, strLower d ≠ "mandatory review") → pr ∈ walkEntries path es
  | _, .nil, pr, h, _ => by simp [allEntries] at h
  | path, .cons e rest, pr, h, hmr => by
      rw [allEntries] at h
      rw [walkEntries]
      rcases List.mem_append.mp h with h1 | h2
      · exact List.mem_append.mpr (Or.inl (allEntry_mem_walk path e pr h1 hmr))
      · exact List.mem_append.mpr (Or.inr (allEntries_mem_walk path rest pr h2 hmr))
end

/-- C6 counterexample: the orchestrator's walk DOES visit dot-prefixed
entries — a file inside the hidden directory `.hidden` is walked and
routed to the txt pass, contradicting the claimed unconditional skip. -/
theorem C6_counterexample :
    ([".hidden"], "a.txt")
        ∈ walkRun (.cons (.dir ".hidden" (.cons (.file "a.txt") .nil)) .nil)
    ∧ startsWithDot ".hidden" = true
    ∧ route_ext "a.txt" = RouteKind.txt := by decide

/-- C6 (amended): the walk skips exactly the directories whose lowercased
name is "mandatory review"; every other file — dot-prefixed ones included
— is visited (and then dispatched by extension). -/
theorem C6_walk_skips_only_mandatory_review (rootChildren : FsEntries) :
    (∀ pr ∈ walkRun rootChildren, ∀ d ∈ pr.1, strLower d ≠ "mandatory review")
    ∧ (∀ pr ∈ allEntries [] rootChildren,
        (∀ d ∈ pr.1, strLower d ≠ "mandatory review") → pr ∈ walkRun rootChildren) := by
  constructor
  · intro pr hpr d hd
    obtain ⟨suf, hsuf, hall⟩ := walkEntries_mr_free [] rootChildren pr hpr
    refine hall d ?_
    rw [hsuf] at hd
    simpa using hd
  · intro pr hpr hmr
    exact allEntries_mem_walk [] rootChildren pr hpr hmr

/-- Witness for C6 (amended): the dot-directory file is visited. -/
theorem C6_walk_skips_only_mandatory_review_witness :
    ([".hidden"], "a.txt")
      ∈ walkRun (.cons (.dir ".hidden" (.cons (.file "a.txt") .nil)) .nil) :=
  (C6_walk_skips_only_mandatory_review
      (.cons (.dir ".hidden" (.cons (.file "a.txt") .nil)) .nil)).2
    ([".hidden"], "a.txt") (by decide) (by decide)

-- ===================== claim C7 =====================

/-- C7: when the text-layer pass rejects, the disk guard passes, and both
OCR passes reject, the cascade makes exactly one writer call — empty page
list, `pass_used = pdf_ocr_b`, score 0, status ERROR, used_ocr true — and
exits 1; that call's catalog row has an empty `txt_relative_path` and no
`.txt` file is written, and the orchestrator quarantines the source with a
`pass rc=1` manifest row and a move to Mandatory Review. -/
theorem C7_all_passes_failed (cfg : PdfConfig) (inp : PdfInput) (p : PathInfo)
    (relpath fname outDir : String)
    (hOk : inp.pagesOk = true)
    (hTxt : pass_pdf_txt_run inp.txtLayer
        (pdf_initial_mode cfg inp.sizeMB inp.txtLayer.length) cfg.passTxtCutoff = none)
    (hDisk : pdf_low_disk inp = false)
    (hA : ocr_a_run inp.ocrA .perPage cfg.passOcrACutoff = none)
    (hB : ocr_b_run inp.ocrB .perPage cfg.passOcrBCutoff = none)
    (hRoute : route_ext fname = RouteKind.pdf) :
    pass_pdf_main cfg inp = ⟨[⟨[], "pdf_ocr_b", some 0, "ERROR", true, ""⟩], 1⟩
    ∧ (write_result p ⟨[], "pdf_ocr_b", some 0, "ERROR", true, ""⟩).row.getD 3 "?" = ""
    ∧ (write_result p ⟨[], "pdf_ocr_b", some 0, "ERROR", true, ""⟩).txtWritten = none
    ∧ handle_file relpath fname outDir 1
        = ⟨some RouteKind.pdf, false,
           [[relpath, "pass rc=1"], [pathName fname, "pass rc=1", ""]],
           some (outDir ++ "/Mandatory Review/" ++ pathName fname)⟩ := by
  refine ⟨?_, ?_, ?_, ?_⟩
  · simp [pass_pdf_main, hOk, hTxt, hDisk, hA, hB]
  · simp [write_result, has_text]
  · simp [write_result, has_text]
  · simp only [handle_file, hRoute, move_to_manual, append_review_manifest_row]
    rfl

/-- Witness for C7 at a PDF whose layers and OCR all come back empty. -/
theorem C7_all_passes_failed_witness :
    pass_pdf_main {} ⟨true, 0, [], [], [], some 2048⟩
      = ⟨[⟨[], "pdf_ocr_b", some 0, "ERROR", true, ""⟩], 1⟩
    ∧ handle_file "a.pdf" "a.pdf" "/out" 1
        = ⟨some RouteKind.pdf, false,
           [["a.pdf", "pass rc=1"], ["a.pdf", "pass rc=1", ""]],
           some "/out/Mandatory Review/a.pdf"⟩ := by
  have h := C7_all_passes_failed {} ⟨true, 0, [], [], [], some 2048⟩
    ⟨"/i/a.pdf", "a.pdf", "ts", "r"⟩ "a.pdf" "a.pdf" "/out"
    rfl (by decide) rfl (by decide) (by decide) (by decide)
  refine ⟨h.1, ?_⟩
  rw [h.2.2.2]
  decide

-- ===================== claim C5 =====================

set_option maxRecDepth 10000 in
/-- C5 counterexample: the size check `current_size + doc_bytes <= max_bytes`
ignores the 28-byte `----- DOCUMENT BREAK -----` separator appended after
each block, so with `MAX_COMBINED_BYTES = 2·b + 28` two identical blocks of
`b` bytes (each well under the limit) land in one chunk of `2·b + 56 >
max_bytes` — a chunk over the limit containing two documents, neither of
which exceeds `max_bytes`. -/
theorem C5_counterexample :
    (write_result ⟨"/data/input/r/a.txt", "r/a.txt", "ts", "r"⟩
        ⟨[(1, "hello")], "txt", some 20000, "OK", false, ""⟩).chunkBlock
      = some (doc_text_block ⟨"/data/input/r/a.txt", "r/a.txt", "ts", "r"⟩
          ⟨[(1, "hello")], "txt", some 20000, "OK", false, ""⟩)
    ∧ (let b := (doc_text_block ⟨"/data/input/r/a.txt", "r/a.txt", "ts", "r"⟩
          ⟨[(1, "hello")], "txt", some 20000, "OK", false, ""⟩).utf8ByteSize
       runChunks [b, b] (2 * b + 28) = [⟨[0, 0, 1], 2 * b + 56, [b, b]⟩]
       ∧ ¬ 2 * b + 56 ≤ 2 * b + 28
       ∧ b ≤ 2 * b + 28) := by decide

theorem natDigitsAux_small : ∀ (f n : Nat), n < 10 → natDigitsAux f n = [n] := by
  intro f n h
  cases f with
  | zero => simp [natDigitsAux, Nat.mod_eq_of_lt h]
  | succ g => simp [natDigitsAux, h]

theorem natDigitsAux_big (f n : Nat) (h : 10 ≤ n) :
    natDigitsAux (f + 1) n = natDigitsAux f (n / 10) ++ [n % 10] := by
  simp [natDigitsAux, Nat.not_lt.mpr h]

theorem natDigitsAux_fuel : ∀ (f g n : Nat), n ≤ f → n ≤ g →
    natDigitsAux f n = natDigitsAux g n := by
  intro f
  induction f with
  | zero =>
      intro g n hf _
      have hn : n = 0 := Nat.le_zero.mp hf
      subst hn
      rw [natDigitsAux_small g 0 (by omega)]
      simp [natDigitsAux]
  | succ f ih =>
      intro g n hf hg
      by_cases h : n < 10
      · rw [natDigitsAux_small _ _ h, natDigitsAux_small _ _ h]
      · have h10 : 10 ≤ n := Nat.not_lt.mp h
        cases g with
        | zero => omega
        | succ g' =>
            rw [natDigitsAux_big f n h10, natDigitsAux_big g' n h10]
            have h1 : n / 10 ≤ f := by omega
            have h2 : n / 10 ≤ g' := by omega
            rw [ih g' (n / 10) h1 h2]

theorem digitsVal_append_single (ds : List Nat) (d : Nat) :
    digitsVal (ds ++ [d]) = digitsVal ds * 10 + d := by
  simp [digitsVal, List.foldl_append]

theorem digitsVal_replicate_zero (m : Nat) (ds : List Nat) :
    digitsVal (List.replicate m 0 ++ ds) = digitsVal ds := by
  induction m with
  | zero => simp
  | succ k ih =>
      have : List.replicate (k + 1) 0 ++ ds = 0 :: (List.replicate k 0 ++ ds) := by
        simp [List.replicate_succ]
      rw [this]
      simpa [digitsVal] using ih

theorem digitsVal_natDigitsAux : ∀ (f n : Nat), n ≤ f →
    digitsVal (natDigitsAux f n) = n := by
  intro f
  induction f with
  | zero =>
      intro n hf
      have hn : n = 0 := Nat.le_zero.mp hf
      subst hn
      simp [natDigitsAux, digitsVal]
  | succ f ih =>
      intro n hf
      by_cases h : n < 10
      · rw [natDigitsAux_small _ _ h]
        simp [digitsVal]
      · have h10 : 10 ≤ n := Nat.not_lt.mp h
        rw [natDigitsAux_big f n h10, digitsVal_append_single,
          ih (n / 10) (by omega)]
        omega

theorem digitsVal_natDigits (n : Nat) : digitsVal (natDigits n) = n :=
  digitsVal_natDigitsAux n n (Nat.le_refl n)

theorem digitsVal_fmtIdx (n : Nat) : digitsVal (fmtIdx n) = n := by
  rw [fmtIdx, digitsVal_replicate_zero, digitsVal_natDigits]

theorem fmtIdx_inj : Function.Injective fmtIdx := by
  intro a b h
  have := digitsVal_fmtIdx a
  rw [h, digitsVal_fmtIdx] at this
  omega

theorem natDigits_small (n : Nat) (h : n < 10) : natDigits n = [n] :=
  natDigitsAux_small n n h

theorem natDigits_mid (n : Nat) (h10 : 10 ≤ n) (h99 : n ≤ 99) :
    natDigits n = [n / 10, n % 10] := by
  cases n with
  | zero => omega
  | succ m =>
      rw [natDigits, natDigitsAux_big m (m + 1) h10,
        natDigitsAux_small m ((m + 1) / 10) (by omega)]
      rfl

theorem natDigits_big (n : Nat) (h100 : 100 ≤ n) (h999 : n ≤ 999) :
    natDigits n = [n / 100, n / 10 % 10, n % 10] := by
  cases n with
  | zero => omega
  | succ m =>
      rw [natDigits, natDigitsAux_big m (m + 1) (by omega)]
      have hf : natDigitsAux m ((m + 1) / 10) = natDigits ((m + 1) / 10) :=
        natDigitsAux_fuel m ((m + 1) / 10) ((m + 1) / 10) (by omega) (Nat.le_refl _)
      rw [hf, natDigits_mid ((m + 1) / 10) (by omega) (by omega)]
      have : (m + 1) / 10 / 10 = (m + 1) / 100 := by
        rw [Nat.div_div_eq_div_mul]
      rw [this]
      rfl

theorem fmtIdx_eq_digits3 (n : Nat) (h999 : n ≤ 999) :
    fmtIdx n = [n / 100, n / 10 % 10, n % 10] := by
  by_cases h10 : n < 10
  · rw [fmtIdx, natDigits_small n h10]
    have e1 : n / 100 = 0 := by omega
    have e2 : n / 10 % 10 = 0 := by omega
    have e3 : n % 10 = n := by omega
    simp [e1, e2, e3, List.replicate]
  · by_cases h100 : n < 100
    · rw [fmtIdx, natDigits_mid n (by omega) (by omega)]
      have e1 : n / 100 = 0 := by omega
      have e2 : n / 10 % 10 = n / 10 := by omega
      simp [e1, e2, List.replicate]
    · rw [fmtIdx, natDigits_big n (by omega) h999]
      simp

theorem lexLt_fmtIdx (a b : Nat) (ha : a ≤ 999) (hb : b ≤ 999) :
    lexLt (fmtIdx a) (fmtIdx b) = true ↔ a < b := by
  rw [fmtIdx_eq_digits3 a ha, fmtIdx_eq_digits3 b hb]
  simp only [lexLt]
  split_ifs <;> simp <;> omega

/-- The name sequence of a well-formed chunk directory: `001`, `002`, … -/
def stdNames (k : Nat) : List (List Nat) :=
  (List.range k).map fun i => fmtIdx (i + 1)

theorem stdNames_getLast? (k : Nat) (hk : 1 ≤ k) :
    (stdNames k).getLast? = some (fmtIdx k) := by
  cases k with
  | zero => omega
  | succ m =>
      rw [stdNames, List.range_succ, List.map_append]
      simp

theorem stdNames_chain (k : Nat) (hk : k ≤ 999) :
    List.Chain' (fun x y => lexLt x y = true) (stdNames k) := by
  induction k with
  | zero => simp [stdNames]
  | succ m ih =>
      rw [stdNames, List.range_succ, List.map_append]
      rw [List.chain'_append]
      refine ⟨ih (by omega), by simp, ?_⟩
      intro x hx y hy
      simp only [List.map_cons, List.map_nil, List.head?_cons, Option.mem_def,
        Option.some.injEq] at hy
      subst hy
      cases m with
      | zero => simp [stdNames] at hx
      | succ p =>
          rw [show ((List.range (p + 1)).map fun i => fmtIdx (i + 1)) = stdNames (p + 1) from rfl]
            at hx
          rw [stdNames_getLast? (p + 1) (by omega)] at hx
          simp only [Option.mem_def, Option.some.injEq] at hx
          subst hx
          exact (lexLt_fmtIdx (p + 1) (p + 2) (by omega) (by omega)).mpr (by omega)

theorem stdNames_nodup (k : Nat) : (stdNames k).Nodup := by
  refine List.Nodup.map ?_ (List.nodup_range k)
  intro a b h
  have := fmtIdx_inj h
  omega

/-- `sorted(existing)[-1]` via the fold: on a lexicographically increasing
chunk list the fold returns the last element. -/
theorem currentChunk_eq_getLast? : ∀ (st : List Chunk),
    List.Chain' (fun a b => lexLt a.name b.name = true) st →
    currentChunk st = st.getLast? := by
  intro st
  induction st with
  | nil => intro _; rfl
  | cons c rest ih =>
      intro hchain
      cases rest with
      | nil => rfl
      | cons c2 rest2 =>
          rw [List.chain'_cons] at hchain
          have hstep : currentChunk (c :: c2 :: rest2) = currentChunk (c2 :: rest2) := by
            simp [currentChunk, hchain.1]
          rw [hstep, ih hchain.2, List.getLast?_cons_cons]

/-- A chunk directory is well formed when its names are exactly
`001 .. k` in order and every chunk obeys the size bound (or is a lone
oversized document, in which case its size also exceeds the limit). -/
def chunkInv (maxB : Nat) (st : List Chunk) : Prop :=
  st.map (·.name) = stdNames st.length
  ∧ ∀ c ∈ st, c.size ≤ maxB + BREAK_MARK.utf8ByteSize
      ∨ ∃ d, c.docs = [d] ∧ maxB < d ∧ maxB < c.size

theorem getLast?_map_name (st : List Chunk) :
    (st.map (·.name)).getLast? = st.getLast?.map (·.name) := by
  induction st with
  | nil => rfl
  | cons c rest ih =>
      cases rest with
      | nil => rfl
      | cons c2 rest2 =>
          simpa [List.getLast?_cons_cons] using ih

theorem mem_of_getLast?_eq {l : List Chunk} {a : Chunk}
    (h : l.getLast? = some a) : a ∈ l := by
  have hx : a ∈ l.getLast? := by rw [h]; rfl
  obtain ⟨hne, heq⟩ := List.mem_getLast?_eq_getLast hx
  rw [heq]
  exact List.getLast_mem hne

theorem combined_append_inv (maxB b : Nat) (st : List Chunk)
    (hlen : st.length ≤ 998) (hinv : chunkInv maxB st) :
    chunkInv maxB (combined_append st b maxB)
    ∧ (combined_append st b maxB).length ≤ st.length + 1 := by
  obtain ⟨hnames, hbound⟩ := hinv
  rcases hempty : st with _ | ⟨c0, rest⟩
  · subst hempty
    refine ⟨⟨?_, ?_⟩, ?_⟩
    · rfl
    · intro c hc
      simp [combined_append, pick_combined_name, currentChunk] at hc
      subst hc
      by_cases hbig : b ≤ maxB
      · exact Or.inl (by simp; omega)
      · exact Or.inr ⟨b, rfl, by omega, by simp; omega⟩
    · simp [combined_append, pick_combined_name, currentChunk]
  · rw [← hempty]
    have hne : st ≠ [] := by rw [hempty]; simp
    set k := st.length with hk
    have hk1 : 1 ≤ k := by rw [hk, hempty]; simp
    have hk998 : k ≤ 998 := hlen
    -- the fold finds the chunk named `fmtIdx k`
    have hchain : List.Chain' (fun a b => lexLt a.name b.name = true) st := by
      have h1 := stdNames_chain k (by omega)
      rw [← hnames] at h1
      exact (List.chain'_map (fun c : Chunk => c.name)).mp h1
    obtain ⟨cur, hcur⟩ : ∃ cur, st.getLast? = some cur := by
      rcases hlast : st.getLast? with _ | cur
      · rw [List.getLast?_eq_none_iff] at hlast
        exact absurd hlast hne
      · exact ⟨cur, rfl⟩
    have hcc : currentChunk st = some cur := by
      rw [currentChunk_eq_getLast? st hchain, hcur]
    have hcurmem : cur ∈ st := mem_of_getLast?_eq hcur
    have hcurname : cur.name = fmtIdx k := by
      have h1 := getLast?_map_name st
      rw [hcur, hnames, stdNames_getLast? k hk1] at h1
      simpa using h1.symm
    have hnodup : (st.map (·.name)).Nodup := by
      rw [hnames]; exact stdNames_nodup k
    have huniq : ∀ c ∈ st, c.name = cur.name → c = cur := by
      intro c hc hname
      exact List.inj_on_of_nodup_map hnodup hc hcurmem hname
    by_cases hfit : cur.size + b ≤ maxB
    · -- reuse the current chunk
      have hpick : pick_combined_name st b maxB = cur.name := by
        simp [pick_combined_name, hcc, hfit]
      have hany : st.any (fun c => c.name == cur.name) = true := by
        simp only [List.any_eq_true]
        exact ⟨cur, hcurmem, by simp⟩
      have happ : combined_append st b maxB
          = st.map (fun c =>
              if c.name == cur.name then
                { c with size := c.size + (b + BREAK_MARK.utf8ByteSize),
                         docs := c.docs ++ [b] }
              else c) := by
        simp only [combined_append, hpick, hany, if_true]
      have hcomp : ((fun c : Chunk => c.name) ∘ fun c : Chunk =>
          if c.name == cur.name then
            { c with size := c.size + (b + BREAK_MARK.utf8ByteSize),
                     docs := c.docs ++ [b] }
          else c) = fun c : Chunk => c.name := by
        funext c
        by_cases h : c.name == cur.name <;> simp [Function.comp, h]
      refine ⟨⟨?_, ?_⟩, ?_⟩
      · rw [happ, List.map_map, hcomp, hnames]
        simp
      · intro c hc
        rw [happ] at hc
        rcases List.mem_map.mp hc with ⟨c1, hc1, rfl⟩
        by_cases h : c1.name == cur.name
        · have hcq : c1 = cur := huniq c1 hc1 (by simpa using h)
          subst hcq
          simp only [h, if_true]
          refine Or.inl ?_
          show c1.size + (b + BREAK_MARK.utf8ByteSize) ≤ maxB + BREAK_MARK.utf8ByteSize
          omega
        · simp only [h, Bool.false_eq_true, if_false]
          exact hbound c1 hc1
      · rw [happ, List.length_map]
        omega
    · -- open a fresh chunk numbered k+1
      have hpick : pick_combined_name st b maxB = fmtIdx (k + 1) := by
        simp [pick_combined_name, hcc, hfit, hcurname, digitsVal_fmtIdx]
      have hany : st.any (fun c => c.name == fmtIdx (k + 1)) = false := by
        rw [List.any_eq_false]
        intro c hc
        cases hbeq : c.name == fmtIdx (k + 1) with
        | false => simp
        | true =>
        exfalso
        have hC : c.name = fmtIdx (k + 1) := eq_of_beq hbeq
        have hmem : c.name ∈ st.map (·.name) := List.mem_map_of_mem _ hc
        rw [hnames, stdNames, List.mem_map] at hmem
        obtain ⟨i, hi, hieq⟩ := hmem
        rw [hC] at hieq
        have := fmtIdx_inj hieq
        rw [List.mem_range] at hi
        omega
      have happ : combined_append st b maxB
          = st ++ [⟨fmtIdx (k + 1), b + BREAK_MARK.utf8ByteSize, [b]⟩] := by
        simp only [combined_append, hpick, hany, Bool.false_eq_true, if_false]
      refine ⟨⟨?_, ?_⟩, ?_⟩
      · rw [happ, List.map_append]
        have hlen2 : (st ++ [(⟨fmtIdx (k + 1), b + BREAK_MARK.utf8ByteSize, [b]⟩ : Chunk)]).length
            = k + 1 := by simp [hk]
        rw [hlen2, hnames, stdNames, stdNames, List.range_succ, List.map_append]
        simp [hk]
      · intro c hc
        rw [happ] at hc
        rcases List.mem_append.mp hc with h1 | h2
        · exact hbound c h1
        · rw [List.mem_singleton] at h2
          subst h2
          by_cases hbig : b ≤ maxB
          · exact Or.inl (by simp; omega)
          · exact Or.inr ⟨b, rfl, by omega, by simp; omega⟩
      · rw [happ]; simp

theorem runChunks_inv (maxB : Nat) : ∀ (blocks : List Nat) (st : List Chunk),
    chunkInv maxB st → st.length + blocks.length ≤ 999 →
    chunkInv maxB (blocks.foldl (fun s b => combined_append s b maxB) st)
    ∧ (blocks.foldl (fun s b => combined_append s b maxB) st).length
        ≤ st.length + blocks.length := by
  intro blocks
  induction blocks with
  | nil => intro st hinv _; exact ⟨hinv, by simp⟩
  | cons b bs ih =>
      intro st hinv hlen
      have hstep := combined_append_inv maxB b st (by simp at hlen; omega) hinv
      have := ih (combined_append st b maxB) hstep.1 (by simp at hlen ⊢; omega)
      exact ⟨this.1, by simp at hlen ⊢; omega⟩

/-- C5 (amended): in any run of at most 999 documents (so chunk numbering
stays unambiguous), every combined chunk stays within `max_bytes` PLUS the
28-byte `----- DOCUMENT BREAK -----` separator of its last document — the
separator is not counted by the size check — unless the chunk holds
exactly one document block that alone exceeds `max_bytes`. -/
theorem C5_chunk_size_bound (blocks : List Nat) (maxB : Nat)
    (h : blocks.length ≤ 999) :
    ∀ c ∈ runChunks blocks maxB,
      c.size ≤ maxB + BREAK_MARK.utf8ByteSize
      ∨ ∃ d, c.docs = [d] ∧ maxB < d := by
  intro c hc
  have hinv := (runChunks_inv maxB blocks [] ⟨by simp [stdNames], by simp⟩
    (by simpa using h)).1
  rcases hinv.2 c hc with h1 | ⟨d, hd, hdg, _⟩
  · exact Or.inl h1
  · exact Or.inr ⟨d, hd, hdg⟩

/-- Witness for C5 (amended) at two 10-byte blocks and `max_bytes = 100`. -/
theorem C5_chunk_size_bound_witness :
    (⟨[0, 0, 1], 76, [10, 10]⟩ : Chunk).size ≤ 100 + BREAK_MARK.utf8ByteSize
    ∨ ∃ d, (⟨[0, 0, 1], 76, [10, 10]⟩ : Chunk).docs = [d] ∧ 100 < d :=
  C5_chunk_size_bound [10, 10] 100 (by decide) ⟨[0, 0, 1], 76, [10, 10]⟩ (by decide)

end DocExtractor
